import Mathlib

/-!
Verification of the grid-trading backtest engine and its parameter-sweep
optimizer (`Grid_multipera_opt.py`).

The Python engine `grid_bot_strategy` is embedded shallowly: prices,
capital, PnL and costs are rationals (`ℚ`); the bar loop is a recursion
over the bar list; the mutable per-run variables become an explicit
`EngineState`.  Python's `round(x, n)` (which on floats rounds half to
even) is modelled by `round` on `ℚ` (round half up); none of the claims
hinges on tie behaviour.  Python division raises `ZeroDivisionError`;
the one reachable case, `grid_levels = 0` in the spacing computation, is
modelled by `grid_bot_strategy` returning `none`.  Rational division by
zero elsewhere (zero bar price, zero capital in the ROI) is outside the
domain the theorems quantify over.
-/

namespace GridBot

/-- Side of a position: `'Buy'` or `'Sell'` in the Python dicts. -/
inductive Side
  | buy
  | sell
deriving DecidableEq, Repr

/-- The `B/S` column strings of the Python trade log. -/
inductive Action
  | buyOpening
  | sellOpening
  | buyClosing
  | sellClosing
  | buySLClosing
  | sellSLClosing
deriving DecidableEq, Repr

/-- One price bar; only `Open time` (as an abstract tick) and `Close`
are consumed by the strategy loop. -/
structure Bar where
  time : ℕ
  close : ℚ
deriving DecidableEq, Repr

/-- An open position dict: `type`, `price` (the grid level), the target
level (`target_sell_level` for longs, `target_buy_level` for shorts)
and `quantity`. -/
structure Position where
  side : Side
  price : ℚ
  target : ℚ
  quantity : ℚ
deriving DecidableEq, Repr

/-- One row appended to `trade_log`:
`[date, price, action, entry_level, target_level, pnl, quantity, cost]`. -/
structure Row where
  time : ℕ
  price : ℚ
  action : Action
  entryLevel : ℚ
  targetLevel : ℚ
  pnl : ℚ
  quantity : ℚ
  cost : ℚ
deriving DecidableEq, Repr

/-- The scalar arguments of `grid_bot_strategy`. -/
structure Config where
  initialPrice : ℚ
  lowerLimit : ℚ
  upperLimit : ℚ
  gridLevels : ℤ
  initialCapital : ℚ
  leverage : ℚ
  lowerStopLoss : ℚ
  upperStopLoss : ℚ
  stopLossEnabled : Bool
deriving DecidableEq, Repr

/-- Python `round(q, 3)`. -/
def round3 (q : ℚ) : ℚ := (round (q * 1000) : ℚ) / 1000

/-- Python `round(q, 8)`. -/
def round8 (q : ℚ) : ℚ := (round (q * 100000000) : ℚ) / 100000000

/-- The spacing `grid_range = (upper_limit - lower_limit) / grid_levels`. -/
def gridRange (cfg : Config) : ℚ :=
  (cfg.upperLimit - cfg.lowerLimit) / (cfg.gridLevels : ℚ)

/-- The ladder `buy_levels`: `initial_price - i * grid_range` for `i` in `range(1, grid_levels + 1)`. -/
def buyLevels (cfg : Config) : List ℚ :=
  (List.range cfg.gridLevels.toNat).map
    (fun (i : ℕ) => cfg.initialPrice - ((i : ℚ) + 1) * gridRange cfg)

/-- The ladder `sell_levels`: `initial_price + i * grid_range` for `i` in `range(1, grid_levels + 1)`. -/
def sellLevels (cfg : Config) : List ℚ :=
  (List.range cfg.gridLevels.toNat).map
    (fun (i : ℕ) => cfg.initialPrice + ((i : ℚ) + 1) * gridRange cfg)

/-- The mutable loop state of `grid_bot_strategy`: `trade_log`,
`total_pnl`, `total_cost`, `working_capital`, `open_positions` and the
stop-loss record (`stop_loss_triggered` together with trigger date and
price; the three Python variables always move together). -/
structure EngineState where
  ledger : List Row
  totalPnl : ℚ
  totalCost : ℚ
  workingCapital : ℚ
  positions : List Position
  slRecord : Option (ℕ × ℚ)
deriving DecidableEq, Repr

/-- Initial loop state. -/
def initState (cfg : Config) : EngineState :=
  ⟨[], 0, 0, cfg.initialCapital * cfg.leverage, [], none⟩

/-- Realized PnL of one position force-closed at the stop-loss trigger
price: `(trigger - entry) * qty` for longs, `(entry - trigger) * qty`
for shorts. -/
def slPnl (slPrice : ℚ) (p : Position) : ℚ :=
  match p.side with
  | Side.buy => (slPrice - p.price) * p.quantity
  | Side.sell => (p.price - slPrice) * p.quantity

/-- Transaction cost of one stop-loss close: `0.0002 * trigger * qty`. -/
def slCost (slPrice : ℚ) (p : Position) : ℚ :=
  (2 / 10000) * slPrice * p.quantity

/-- The ledger row of one stop-loss close (entry/target columns are
filled asymmetrically per side, as in the Python code). -/
def slRow (time : ℕ) (slPrice : ℚ) (p : Position) : Row :=
  match p.side with
  | Side.buy =>
    ⟨time, slPrice, Action.sellSLClosing, p.price, slPrice,
      round3 (slPnl slPrice p), p.quantity, round3 (slCost slPrice p)⟩
  | Side.sell =>
    ⟨time, slPrice, Action.buySLClosing, slPrice, p.price,
      round3 (slPnl slPrice p), p.quantity, round3 (slCost slPrice p)⟩

/-- Accounting effect of force-closing one position at the stop-loss
price. -/
def slCloseStep (time : ℕ) (slPrice : ℚ) (s : EngineState) (p : Position) :
    EngineState :=
  { s with
    totalPnl := s.totalPnl + slPnl slPrice p
    totalCost := s.totalCost + slCost slPrice p
    workingCapital := s.workingCapital + slPnl slPrice p
    ledger := s.ledger ++ [slRow time slPrice p] }

/-- The whole stop-loss branch: close every open position at the bar's
close, clear `open_positions`, set the stop-loss record. -/
def slCloseAll (b : Bar) (s : EngineState) : EngineState :=
  let s' := s.positions.foldl (slCloseStep b.time b.close) s
  { s' with positions := [], slRecord := some (b.time, b.close) }

/-- Holds when the bar price reaches the position's target
(`price >= target_sell_level` for longs, `price <= target_buy_level`
for shorts). -/
def hitsTarget (price : ℚ) (p : Position) : Prop :=
  match p.side with
  | Side.buy => p.target ≤ price
  | Side.sell => price ≤ p.target

instance (price : ℚ) (p : Position) : Decidable (hitsTarget price p) := by
  unfold hitsTarget
  cases p.side <;> infer_instance

/-- Realized PnL of a target close at the current bar price. -/
def closePnl (price : ℚ) (p : Position) : ℚ :=
  match p.side with
  | Side.buy => (price - p.price) * p.quantity
  | Side.sell => (p.price - price) * p.quantity

/-- Transaction cost of a target close: `0.0002 * price * qty`. -/
def closeCost (price : ℚ) (p : Position) : ℚ :=
  (2 / 10000) * price * p.quantity

/-- The ledger row of a target close. -/
def closeRow (time : ℕ) (price : ℚ) (p : Position) : Row :=
  match p.side with
  | Side.buy =>
    ⟨time, price, Action.sellClosing, p.price, p.target,
      round3 (closePnl price p), p.quantity, round3 (closeCost price p)⟩
  | Side.sell =>
    ⟨time, price, Action.buyClosing, p.target, p.price,
      round3 (closePnl price p), p.quantity, round3 (closeCost price p)⟩

/-- One iteration of the `for pos in open_positions[:]` loop: close the
position if its target is hit, else keep it. -/
def manageStep (time : ℕ) (price : ℚ) (s : EngineState) (p : Position) :
    EngineState :=
  if hitsTarget price p then
    { s with
      totalPnl := s.totalPnl + closePnl price p
      totalCost := s.totalCost + closeCost price p
      workingCapital := s.workingCapital + closePnl price p
      ledger := s.ledger ++ [closeRow time price p] }
  else { s with positions := s.positions ++ [p] }

/-- The "Manage existing positions" phase: iterate over a copy of the
open list, removing closed positions (survivors keep their order). -/
def managePositions (time : ℕ) (price : ℚ) (s : EngineState) : EngineState :=
  s.positions.foldl (manageStep time price) { s with positions := [] }

/-- Opening one level, guarded by the occupancy check
`not any(p['price'] == level for p in open_positions)`.  The stored
quantity is `round(working_capital / (price * grid_levels), 8)`; the
cost added to the running total is computed from the unrounded
quantity. -/
def openStep (cfg : Config) (time : ℕ) (price : ℚ) (side : Side)
    (s : EngineState) (level : ℚ) : EngineState :=
  if s.positions.any (fun p => p.price == level) then s
  else
    let quantity := s.workingCapital / (price * (cfg.gridLevels : ℚ))
    let target :=
      match side with
      | Side.buy => level + gridRange cfg
      | Side.sell => level - gridRange cfg
    let cost := (2 / 10000) * price * quantity
    let row :=
      match side with
      | Side.buy =>
        ⟨time, price, Action.buyOpening, level, target, 0,
          round8 quantity, round3 cost⟩
      | Side.sell =>
        ⟨time, price, Action.sellOpening, target, level, 0,
          round8 quantity, round3 cost⟩
    { s with
      totalCost := s.totalCost + cost
      positions := s.positions ++ [⟨side, level, target, round8 quantity⟩]
      ledger := s.ledger ++ [row] }

/-- The "Grid strategy logic" phase: on a price strictly below the
initial price, open longs at all unoccupied buy levels at or above the
price; symmetrically for shorts above the initial price. -/
def openPhase (cfg : Config) (time : ℕ) (price : ℚ) (s : EngineState) :
    EngineState :=
  let eligibleBuys := (buyLevels cfg).filter (fun l => price ≤ l)
  let eligibleSells := (sellLevels cfg).filter (fun l => l ≤ price)
  if price < cfg.initialPrice ∧ eligibleBuys ≠ [] then
    eligibleBuys.foldl (openStep cfg time price Side.buy) s
  else if cfg.initialPrice < price ∧ eligibleSells ≠ [] then
    eligibleSells.foldl (openStep cfg time price Side.sell) s
  else s

/-- One iteration of the bar loop.  The boolean is `false` exactly when
the Python loop executes `break` (a stop-loss fired). -/
def processBar (cfg : Config) (s : EngineState) (b : Bar) :
    EngineState × Bool :=
  if cfg.stopLossEnabled = true ∧ cfg.upperStopLoss ≤ b.close then
    (slCloseAll b s, false)
  else if cfg.stopLossEnabled = true ∧ b.close ≤ cfg.lowerStopLoss then
    (slCloseAll b s, false)
  else
    (openPhase cfg b.time b.close (managePositions b.time b.close s), true)

/-- The bar loop: consume bars until exhausted or a stop-loss `break`. -/
def runBars (cfg : Config) : EngineState → List Bar → EngineState
  | s, [] => s
  | s, b :: bs =>
    match processBar cfg s b with
    | (s', true) => runBars cfg s' bs
    | (s', false) => s'

/-- The mark-to-market reference price: trigger price if a stop-loss
fired, else the last close, else the initial price. -/
def mtmPriceOf (cfg : Config) (bars : List Bar) (s : EngineState) : ℚ :=
  match s.slRecord with
  | some (_, p) => p
  | none =>
    match bars.getLast? with
    | some b => b.close
    | none => cfg.initialPrice

/-- Unrealized valuation of the remaining open positions at `price`. -/
def mtmOf (price : ℚ) (positions : List Position) : ℚ :=
  (positions.map (fun p =>
    match p.side with
    | Side.buy => (price - p.price) * p.quantity
    | Side.sell => (p.price - price) * p.quantity)).sum

/-- The tuple returned by `grid_bot_strategy`. -/
structure RunResult where
  ledger : List Row
  totalPnl : ℚ
  mtmValue : ℚ
  totalMTM : ℚ
  totalCost : ℚ
  roi : ℚ
  openTrades : ℕ
  slRecord : Option (ℕ × ℚ)
deriving DecidableEq, Repr

/-- The whole strategy run for a nonzero level count: loop over the
bars, then the mark-to-market and summary block. -/
def gridRun (cfg : Config) (bars : List Bar) : RunResult :=
  let s := runBars cfg (initState cfg) bars
  let mp := mtmPriceOf cfg bars s
  let mtm := mtmOf mp s.positions
  let tm := s.totalPnl + mtm - s.totalCost
  ⟨s.ledger, s.totalPnl, mtm, tm, s.totalCost,
    tm / cfg.initialCapital * 100, s.positions.length, s.slRecord⟩

/-- The function `grid_bot_strategy`.  Two divisions can raise
`ZeroDivisionError` on any input with positive bar closes: the spacing
division of the very first statement when `grid_levels = 0`, and the
`roi = total_mtm / initial_capital * 100` line, which runs after every
completed bar loop, when `initial_capital = 0`.  Both are modelled as
`none`; otherwise the run completes. -/
def grid_bot_strategy (cfg : Config) (bars : List Bar) : Option RunResult :=
  if cfg.gridLevels = 0 then none
  else if cfg.initialCapital = 0 then none
  else some (gridRun cfg bars)

/-- Sum of the ledger's `PNL_Current` column; equals the final
`Cumulative_PNL` entry. -/
def ledgerPnlSum (rows : List Row) : ℚ := (rows.map Row.pnl).sum

/-- Sum of the ledger's `Transaction_Cost` column; equals the final
`Cumulative_Cost` entry. -/
def ledgerCostSum (rows : List Row) : ℚ := (rows.map Row.cost).sum


/-! ### Generic fold helpers -/

/-- An invariant preserved by every step of a left fold holds of the
result. -/
lemma foldl_preserves {α β : Type} {P : β → Prop} (f : β → α → β) :
    ∀ (l : List α) (b : β), P b → (∀ x ∈ l, ∀ c, P c → P (f c x)) →
      P (l.foldl f b) := by
  intro l
  induction l with
  | nil => intro b hb _; exact hb
  | cons a l ih =>
    intro b hb h
    exact ih (f b a) (h a (List.mem_cons_self a l) b hb)
      (fun x hx c hc => h x (List.mem_cons_of_mem a hx) c hc)

/-! ### The stop-loss branch -/

/-- Effect of the stop-loss closing fold on each state component. -/
lemma slClose_foldl (t : ℕ) (pr : ℚ) :
    ∀ (ps : List Position) (s : EngineState),
      (ps.foldl (slCloseStep t pr) s).ledger = s.ledger ++ ps.map (slRow t pr) ∧
      (ps.foldl (slCloseStep t pr) s).totalPnl
        = s.totalPnl + (ps.map (slPnl pr)).sum ∧
      (ps.foldl (slCloseStep t pr) s).totalCost
        = s.totalCost + (ps.map (slCost pr)).sum ∧
      (ps.foldl (slCloseStep t pr) s).positions = s.positions := by
  intro ps
  induction ps with
  | nil => intro s; simp
  | cons p ps ih =>
    intro s
    have h := ih (slCloseStep t pr s p)
    simp only [List.foldl_cons, List.map_cons, List.sum_cons]
    refine ⟨?_, ?_, ?_, ?_⟩
    · rw [h.1]; simp [slCloseStep]
    · rw [h.2.1]; simp [slCloseStep]; ring
    · rw [h.2.2.1]; simp [slCloseStep]; ring
    · rw [h.2.2.2]; simp [slCloseStep]

lemma slCloseAll_ledger (b : Bar) (s : EngineState) :
    (slCloseAll b s).ledger = s.ledger ++ s.positions.map (slRow b.time b.close) :=
  (slClose_foldl b.time b.close s.positions s).1

lemma slCloseAll_totalPnl (b : Bar) (s : EngineState) :
    (slCloseAll b s).totalPnl = s.totalPnl + (s.positions.map (slPnl b.close)).sum :=
  (slClose_foldl b.time b.close s.positions s).2.1

lemma slCloseAll_totalCost (b : Bar) (s : EngineState) :
    (slCloseAll b s).totalCost = s.totalCost + (s.positions.map (slCost b.close)).sum :=
  (slClose_foldl b.time b.close s.positions s).2.2.1

lemma slCloseAll_positions (b : Bar) (s : EngineState) :
    (slCloseAll b s).positions = [] := rfl

lemma slCloseAll_slRecord (b : Bar) (s : EngineState) :
    (slCloseAll b s).slRecord = some (b.time, b.close) := rfl

/-- When the stop-loss is enabled and the bar's close breaches a bound,
the bar executes the stop-loss branch and the loop breaks. -/
lemma processBar_sl (cfg : Config) (s : EngineState) (b : Bar)
    (hen : cfg.stopLossEnabled = true)
    (htrig : cfg.upperStopLoss ≤ b.close ∨ b.close ≤ cfg.lowerStopLoss) :
    processBar cfg s b = (slCloseAll b s, false) := by
  unfold processBar
  by_cases h1 : cfg.stopLossEnabled = true ∧ cfg.upperStopLoss ≤ b.close
  · rw [if_pos h1]
  · rw [if_neg h1]
    rcases htrig with h | h
    · exact absurd ⟨hen, h⟩ h1
    · rw [if_pos ⟨hen, h⟩]


/-- C1: on a triggering bar the whole run collapses to the stop-loss
branch applied to that bar. -/
lemma runBars_sl_trigger (cfg : Config) (s : EngineState) (b : Bar)
    (rest : List Bar)
    (hen : cfg.stopLossEnabled = true)
    (htrig : cfg.upperStopLoss ≤ b.close ∨ b.close ≤ cfg.lowerStopLoss) :
    runBars cfg s (b :: rest) = slCloseAll b s := by
  rw [runBars, processBar_sl cfg s b hen htrig]

/-- C1.  With the stop-loss enabled, a bar whose close is at or
beyond `upperStopLoss`, or at or below `lowerStopLoss`, halts the run:
the remaining bars are never consumed (the run equals the run on the
trigger bar alone), every open position is closed at the trigger price
with realized PnL `(trigger − entry)·qty` for longs and
`(entry − trigger)·qty` for shorts and cost `0.0002·trigger·qty`, one
SL-close ledger row is appended per closed position, the open set is
emptied, and the trigger date and price are recorded. -/
theorem sl_trigger_closes_all (cfg : Config) (s : EngineState) (b : Bar)
    (rest : List Bar)
    (hen : cfg.stopLossEnabled = true)
    (htrig : cfg.upperStopLoss ≤ b.close ∨ b.close ≤ cfg.lowerStopLoss) :
    runBars cfg s (b :: rest) = runBars cfg s [b] ∧
    (runBars cfg s (b :: rest)).positions = [] ∧
    (runBars cfg s (b :: rest)).slRecord = some (b.time, b.close) ∧
    (runBars cfg s (b :: rest)).ledger
      = s.ledger ++ s.positions.map (slRow b.time b.close) ∧
    (runBars cfg s (b :: rest)).totalPnl
      = s.totalPnl + (s.positions.map (fun p =>
          match p.side with
          | Side.buy => (b.close - p.price) * p.quantity
          | Side.sell => (p.price - b.close) * p.quantity)).sum ∧
    (runBars cfg s (b :: rest)).totalCost
      = s.totalCost + (s.positions.map (fun p =>
          2 / 10000 * b.close * p.quantity)).sum := by
  have hrun := runBars_sl_trigger cfg s b rest hen htrig
  have hrun1 := runBars_sl_trigger cfg s b [] hen htrig
  rw [hrun, hrun1]
  refine ⟨rfl, slCloseAll_positions b s, slCloseAll_slRecord b s,
    slCloseAll_ledger b s, ?_, ?_⟩
  · exact slCloseAll_totalPnl b s
  · exact slCloseAll_totalCost b s

def cfgW1 : Config := ⟨100, 80, 120, 2, 1000, 1, 70, 130, true⟩

def sW1 : EngineState :=
  ⟨[], 0, 0, 1000, [⟨Side.buy, 80, 100, 5⟩], none⟩

theorem sl_trigger_closes_all_witness :
    (runBars cfgW1 sW1 [⟨7, 130⟩, ⟨8, 99⟩]).positions = [] ∧
    (runBars cfgW1 sW1 [⟨7, 130⟩, ⟨8, 99⟩]).slRecord = some (7, 130) ∧
    (runBars cfgW1 sW1 [⟨7, 130⟩, ⟨8, 99⟩]).ledger
      = sW1.ledger ++ sW1.positions.map (slRow 7 130) := by
  have h := sl_trigger_closes_all cfgW1 sW1 ⟨7, 130⟩ [⟨8, 99⟩] rfl
    (Or.inl (by norm_num [cfgW1]))
  exact ⟨h.2.1, h.2.2.1, h.2.2.2.1⟩

/-- C10.  In every run in which a stop-loss fires — upper or lower
bound, exact touch or gap — the recorded trigger price and the price on
every appended close row equal the triggering bar's close, not the
configured `upperStopLoss`/`lowerStopLoss` bound; in particular, when
the close gapped strictly past either bound, the close-out price lies
strictly beyond that configured bound. -/
theorem sl_price_is_bar_close (cfg : Config) (s : EngineState) (b : Bar)
    (rest : List Bar)
    (hen : cfg.stopLossEnabled = true)
    (htrig : cfg.upperStopLoss ≤ b.close ∨ b.close ≤ cfg.lowerStopLoss) :
    (runBars cfg s (b :: rest)).slRecord = some (b.time, b.close) ∧
    (∀ r ∈ (runBars cfg s (b :: rest)).ledger,
      r ∈ s.ledger ∨ r.price = b.close) ∧
    (cfg.upperStopLoss < b.close → b.close ≠ cfg.upperStopLoss) ∧
    (b.close < cfg.lowerStopLoss → b.close ≠ cfg.lowerStopLoss) := by
  have hrun := runBars_sl_trigger cfg s b rest hen htrig
  rw [hrun]
  refine ⟨slCloseAll_slRecord b s, ?_, fun h => ne_of_gt h,
    fun h => ne_of_lt h⟩
  intro r hr
  rw [slCloseAll_ledger b s] at hr
  rcases List.mem_append.mp hr with h | h
  · exact Or.inl h
  · right
    rcases List.mem_map.mp h with ⟨p, _, rfl⟩
    cases hp : p.side <;> simp [slRow, hp]

def sW10 : EngineState :=
  ⟨[], 0, 0, 1000, [⟨Side.sell, 120, 100, 3⟩], none⟩

theorem sl_price_is_bar_close_witness :
    (runBars cfgW1 sW10 [⟨4, 145⟩]).slRecord = some (4, 145) ∧
    (145 : ℚ) ≠ cfgW1.upperStopLoss ∧
    (runBars cfgW1 sW10 [⟨9, 60⟩, ⟨10, 95⟩]).slRecord = some (9, 60) ∧
    (60 : ℚ) ≠ cfgW1.lowerStopLoss := by
  have hu := sl_price_is_bar_close cfgW1 sW10 ⟨4, 145⟩ [] rfl
    (Or.inl (by norm_num [cfgW1]))
  have hl := sl_price_is_bar_close cfgW1 sW10 ⟨9, 60⟩ [⟨10, 95⟩] rfl
    (Or.inr (by norm_num [cfgW1]))
  exact ⟨hu.1, hu.2.2.1 (by norm_num [cfgW1]), hl.1,
    hl.2.2.2 (by norm_num [cfgW1])⟩


/-! ### The target-close phase -/

/-- The close fold only removes positions and only appends close rows. -/
lemma manage_foldl (t : ℕ) (pr : ℚ) :
    ∀ (ps : List Position) (acc : EngineState),
      (∀ q ∈ (ps.foldl (manageStep t pr) acc).positions,
        q ∈ acc.positions ∨ q ∈ ps) ∧
      (∀ r ∈ (ps.foldl (manageStep t pr) acc).ledger,
        r ∈ acc.ledger ∨ r.action = Action.sellClosing ∨
          r.action = Action.buyClosing) := by
  intro ps
  induction ps with
  | nil =>
    intro acc
    exact ⟨fun q hq => Or.inl hq, fun r hr => Or.inl hr⟩
  | cons p ps ih =>
    intro acc
    rw [List.foldl_cons]
    have h := ih (manageStep t pr acc p)
    constructor
    · intro q hq
      rcases h.1 q hq with hq' | hq'
      · unfold manageStep at hq'
        by_cases hc : hitsTarget pr p
        · rw [if_pos hc] at hq'
          exact Or.inl hq'
        · rw [if_neg hc] at hq'
          simp only [List.mem_append, List.mem_singleton] at hq'
          rcases hq' with hq' | hq'
          · exact Or.inl hq'
          · exact Or.inr (by simp [hq'])
      · exact Or.inr (List.mem_cons_of_mem p hq')
    · intro r hr
      rcases h.2 r hr with hr' | hr'
      · unfold manageStep at hr'
        by_cases hc : hitsTarget pr p
        · rw [if_pos hc] at hr'
          simp only [List.mem_append, List.mem_singleton] at hr'
          rcases hr' with hr' | hr'
          · exact Or.inl hr'
          · right
            subst hr'
            cases hp : p.side <;> simp [closeRow, hp]
        · rw [if_neg hc] at hr'
          exact Or.inl hr'
      · exact Or.inr hr'

lemma managePositions_positions (t : ℕ) (pr : ℚ) (s : EngineState) :
    ∀ q ∈ (managePositions t pr s).positions, q ∈ s.positions := by
  intro q hq
  rcases (manage_foldl t pr s.positions { s with positions := [] }).1 q hq with
    h | h
  · simp at h
  · exact h

lemma managePositions_ledger (t : ℕ) (pr : ℚ) (s : EngineState) :
    ∀ r ∈ (managePositions t pr s).ledger,
      r ∈ s.ledger ∨ r.action = Action.sellClosing ∨
        r.action = Action.buyClosing :=
  (manage_foldl t pr s.positions { s with positions := [] }).2

/-- C9.  A bar whose close equals the initial price opens nothing:
after the bar, every open position was already open before it, and
every ledger row either predates the bar or is a close (target close or
stop-loss close) — never an opening row. -/
theorem equal_price_no_opens (cfg : Config) (s : EngineState) (b : Bar)
    (heq : b.close = cfg.initialPrice) :
    (∀ q ∈ (processBar cfg s b).1.positions, q ∈ s.positions) ∧
    (∀ r ∈ (processBar cfg s b).1.ledger,
      r ∈ s.ledger ∨
        (r.action ≠ Action.buyOpening ∧ r.action ≠ Action.sellOpening)) := by
  unfold processBar
  by_cases h1 : cfg.stopLossEnabled = true ∧ cfg.upperStopLoss ≤ b.close
  · rw [if_pos h1]
    constructor
    · intro q hq
      simp [slCloseAll_positions] at hq
    · intro r hr
      simp only [slCloseAll_ledger] at hr
      rcases List.mem_append.mp hr with h | h
      · exact Or.inl h
      · right
        rcases List.mem_map.mp h with ⟨p, _, rfl⟩
        cases hp : p.side <;> simp [slRow, hp]
  · rw [if_neg h1]
    by_cases h2 : cfg.stopLossEnabled = true ∧ b.close ≤ cfg.lowerStopLoss
    · rw [if_pos h2]
      constructor
      · intro q hq
        simp [slCloseAll_positions] at hq
      · intro r hr
        simp only [slCloseAll_ledger] at hr
        rcases List.mem_append.mp hr with h | h
        · exact Or.inl h
        · right
          rcases List.mem_map.mp h with ⟨p, _, rfl⟩
          cases hp : p.side <;> simp [slRow, hp]
    · rw [if_neg h2]
      have hopen : openPhase cfg b.time b.close (managePositions b.time b.close s)
          = managePositions b.time b.close s := by
        unfold openPhase
        rw [if_neg (by rw [heq]; simp), if_neg (by rw [heq]; simp)]
      simp only [hopen]
      constructor
      · exact managePositions_positions b.time b.close s
      · intro r hr
        rcases managePositions_ledger b.time b.close s r hr with h | h
        · exact Or.inl h
        · right
          rcases h with h | h <;> simp [h]

def cfgW9 : Config := ⟨100, 80, 120, 2, 1000, 1, 70, 130, false⟩

def sW9 : EngineState :=
  ⟨[], 0, 0, 1000, [⟨Side.buy, 80, 110, 5⟩], none⟩

lemma pbW9 : processBar cfgW9 sW9 ⟨3, 100⟩ = (sW9, true) := by
  simp [processBar, sW9, managePositions, manageStep, hitsTarget, openPhase,
    show cfgW9.stopLossEnabled = false from rfl,
    show cfgW9.initialPrice = 100 from rfl]
  norm_num

theorem equal_price_no_opens_witness :
    (⟨Side.buy, 80, 110, 5⟩ : Position) ∈ sW9.positions := by
  have h := equal_price_no_opens cfgW9 sW9 ⟨3, 100⟩ (by norm_num [cfgW9])
  apply h.1
  rw [pbW9]
  simp [sW9]


/-! ### Final metrics -/

/-- C2.  For every run (any nonzero level count, so the spacing
division succeeds), the mark-to-market price is the stop-loss trigger
price when one fired, else the last close, else the initial price on an
empty series; the mark-to-market value sums the per-position unrealized
PnL at that price; and the returned metrics satisfy
`totalMTM = totalRealizedPnL + markToMarket − totalCost` and
`ROI = totalMTM / initialCapital · 100`. -/
theorem final_metrics_formula (cfg : Config) (bars : List Bar)
    (hN : cfg.gridLevels ≠ 0) (hcap : cfg.initialCapital ≠ 0) :
    grid_bot_strategy cfg bars = some (gridRun cfg bars) ∧
    (gridRun cfg bars).totalMTM
      = (gridRun cfg bars).totalPnl + (gridRun cfg bars).mtmValue
          - (gridRun cfg bars).totalCost ∧
    (gridRun cfg bars).roi
      = (gridRun cfg bars).totalMTM / cfg.initialCapital * 100 ∧
    (gridRun cfg bars).mtmValue
      = mtmOf (mtmPriceOf cfg bars (runBars cfg (initState cfg) bars))
          (runBars cfg (initState cfg) bars).positions ∧
    (∀ d p, (runBars cfg (initState cfg) bars).slRecord = some (d, p) →
      mtmPriceOf cfg bars (runBars cfg (initState cfg) bars) = p) ∧
    ((runBars cfg (initState cfg) bars).slRecord = none →
      ∀ lb, bars.getLast? = some lb →
        mtmPriceOf cfg bars (runBars cfg (initState cfg) bars) = lb.close) ∧
    ((runBars cfg (initState cfg) bars).slRecord = none → bars = [] →
      mtmPriceOf cfg bars (runBars cfg (initState cfg) bars)
        = cfg.initialPrice) := by
  refine ⟨?_, rfl, rfl, rfl, ?_, ?_, ?_⟩
  · unfold grid_bot_strategy
    rw [if_neg hN, if_neg hcap]
  · intro d p h
    unfold mtmPriceOf
    rw [h]
  · intro hnone lb hlb
    unfold mtmPriceOf
    rw [hnone, hlb]
  · intro hnone hnil
    unfold mtmPriceOf
    rw [hnone, hnil]
    rfl

def cfgW2 : Config := ⟨100, 80, 120, 2, 1000, 1, 70, 130, false⟩

theorem final_metrics_formula_witness :
    grid_bot_strategy cfgW2 [⟨1, 50⟩] = some (gridRun cfgW2 [⟨1, 50⟩]) ∧
    (gridRun cfgW2 [⟨1, 50⟩]).totalMTM
      = (gridRun cfgW2 [⟨1, 50⟩]).totalPnl + (gridRun cfgW2 [⟨1, 50⟩]).mtmValue
          - (gridRun cfgW2 [⟨1, 50⟩]).totalCost := by
  have h := final_metrics_formula cfgW2 [⟨1, 50⟩] (by decide)
    (by norm_num [cfgW2])
  exact ⟨h.1, h.2.1⟩

/-! ### The grid planner -/

lemma gridRange_pos (cfg : Config) (hl : cfg.lowerLimit < cfg.upperLimit)
    (hn : 0 < cfg.gridLevels) : 0 < gridRange cfg := by
  unfold gridRange
  apply div_pos (sub_pos.mpr hl)
  exact_mod_cast hn

/-- C6.  For `lowerLimit < upperLimit` and a positive level count
`N`, the planner yields exactly `N` buy levels `initialPrice − i·spacing`
(`i = 1..N`, zero-indexed below as `i+1`), strictly decreasing and all
below the initial price, and `N` sell levels `initialPrice + i·spacing`,
strictly increasing and all above it, with
`spacing = (upperLimit − lowerLimit)/gridLevels`. -/
theorem grid_levels_spec (cfg : Config)
    (hl : cfg.lowerLimit < cfg.upperLimit) (hn : 0 < cfg.gridLevels) :
    (buyLevels cfg).length = cfg.gridLevels.toNat ∧
    (sellLevels cfg).length = cfg.gridLevels.toNat ∧
    (∀ i (h : i < (buyLevels cfg).length),
      (buyLevels cfg).get ⟨i, h⟩
        = cfg.initialPrice - ((i : ℚ) + 1) * gridRange cfg) ∧
    (∀ i (h : i < (sellLevels cfg).length),
      (sellLevels cfg).get ⟨i, h⟩
        = cfg.initialPrice + ((i : ℚ) + 1) * gridRange cfg) ∧
    (∀ i j (hi : i < (buyLevels cfg).length) (hj : j < (buyLevels cfg).length),
      i < j → (buyLevels cfg).get ⟨j, hj⟩ < (buyLevels cfg).get ⟨i, hi⟩) ∧
    (∀ i j (hi : i < (sellLevels cfg).length)
        (hj : j < (sellLevels cfg).length),
      i < j → (sellLevels cfg).get ⟨i, hi⟩ < (sellLevels cfg).get ⟨j, hj⟩) ∧
    (∀ l ∈ buyLevels cfg, l < cfg.initialPrice) ∧
    (∀ l ∈ sellLevels cfg, cfg.initialPrice < l) := by
  have hr := gridRange_pos cfg hl hn
  have hbl : (buyLevels cfg).length = cfg.gridLevels.toNat := by
    simp only [buyLevels, List.length_map, List.length_range]
  have hsl : (sellLevels cfg).length = cfg.gridLevels.toNat := by
    simp only [sellLevels, List.length_map, List.length_range]
  have hbget : ∀ i (h : i < (buyLevels cfg).length),
      (buyLevels cfg).get ⟨i, h⟩
        = cfg.initialPrice - ((i : ℚ) + 1) * gridRange cfg := by
    intro i h
    have h' := h
    rw [hbl] at h'
    simp only [buyLevels, List.get_eq_getElem, List.getElem_map,
      List.getElem_range]
  have hsget : ∀ i (h : i < (sellLevels cfg).length),
      (sellLevels cfg).get ⟨i, h⟩
        = cfg.initialPrice + ((i : ℚ) + 1) * gridRange cfg := by
    intro i h
    have h' := h
    rw [hsl] at h'
    simp only [sellLevels, List.get_eq_getElem, List.getElem_map,
      List.getElem_range]
  refine ⟨hbl, hsl, hbget, hsget, ?_, ?_, ?_, ?_⟩
  · intro i j hi hj hij
    rw [hbget i hi, hbget j hj]
    have : ((i : ℚ) + 1) * gridRange cfg < ((j : ℚ) + 1) * gridRange cfg := by
      apply mul_lt_mul_of_pos_right _ hr
      have : (i : ℚ) < (j : ℚ) := by exact_mod_cast hij
      linarith
    linarith
  · intro i j hi hj hij
    rw [hsget i hi, hsget j hj]
    have : ((i : ℚ) + 1) * gridRange cfg < ((j : ℚ) + 1) * gridRange cfg := by
      apply mul_lt_mul_of_pos_right _ hr
      have : (i : ℚ) < (j : ℚ) := by exact_mod_cast hij
      linarith
    linarith
  · intro l hl'
    rcases List.mem_map.mp hl' with ⟨i, _, rfl⟩
    have hi : (0 : ℚ) ≤ (i : ℚ) := by exact_mod_cast Nat.zero_le i
    have : 0 < ((i : ℚ) + 1) * gridRange cfg := by
      apply mul_pos _ hr
      linarith
    linarith
  · intro l hl'
    rcases List.mem_map.mp hl' with ⟨i, _, rfl⟩
    have hi : (0 : ℚ) ≤ (i : ℚ) := by exact_mod_cast Nat.zero_le i
    have : 0 < ((i : ℚ) + 1) * gridRange cfg := by
      apply mul_pos _ hr
      linarith
    linarith

def cfgW6 : Config := ⟨100, 80, 120, 2, 1000, 1, 70, 130, false⟩

theorem grid_levels_spec_witness :
    (buyLevels cfgW6).length = 2 ∧
    ∀ l ∈ buyLevels cfgW6, l < cfgW6.initialPrice := by
  have h := grid_levels_spec cfgW6 (by norm_num [cfgW6]) (by decide)
  refine ⟨?_, h.2.2.2.2.2.2.1⟩
  rw [h.1]
  rfl


/-! ### The parameter sweep (`optimize_strategy`) -/

lemma round_eval {q : ℚ} {n : ℤ} (h1 : (n : ℚ) ≤ q + 1 / 2)
    (h2 : q + 1 / 2 < n + 1) : round q = n := by
  rw [round_eq]
  exact Int.floor_eq_iff.mpr ⟨h1, by exact_mod_cast h2⟩

/-! ### C7: input validation -/

def cfgC7 : Config := ⟨100, 80, 120, 2, 1000, 1, 80, 120, true⟩

/-- C7 counterexample.  The claim says an empty bar sequence makes
the engine fail with a typed error; in fact the run completes normally
on empty input (with an empty ledger and zero `totalMTM`), because the
code performs no input validation at all. -/
theorem empty_bars_succeeds_counterexample :
    grid_bot_strategy cfgC7 [] = some (gridRun cfgC7 []) ∧
    (gridRun cfgC7 []).ledger = [] ∧
    (gridRun cfgC7 []).totalMTM = 0 := by
  refine ⟨?_, ?_, ?_⟩
  · unfold grid_bot_strategy
    rw [if_neg (by decide : ¬cfgC7.gridLevels = 0),
      if_neg (by norm_num [cfgC7] : ¬cfgC7.initialCapital = 0)]
  · rfl
  · show (0 : ℚ) + mtmOf _ [] - 0 = 0
    simp [mtmOf]

/-- C7 amended.  The engine performs no upfront validation and defines
no typed `InvalidInput`/`InvalidConfiguration` errors: for runs with
positive bar closes (the domain on which the embedding is exact), it
fails exactly when `gridLevels = 0` (a `ZeroDivisionError` in the
spacing computation, the first statement of the body) or when
`initialCapital = 0` (a `ZeroDivisionError` in the ROI division, which
executes after every completed bar loop).  Empty bar sequences,
negative `gridLevels`, and `upperLimit ≤ lowerLimit` all complete
without error. -/
theorem run_failure_iff_zero_grid (cfg : Config) (bars : List Bar)
    (hpos : ∀ b ∈ bars, 0 < b.close) :
    (grid_bot_strategy cfg bars).isSome = true ↔
      (cfg.gridLevels ≠ 0 ∧ cfg.initialCapital ≠ 0) := by
  unfold grid_bot_strategy
  by_cases h1 : cfg.gridLevels = 0
  · rw [if_pos h1]
    simp [h1]
  · rw [if_neg h1]
    by_cases h2 : cfg.initialCapital = 0
    · rw [if_pos h2]
      simp [h1, h2]
    · rw [if_neg h2]
      simp [h1, h2]

def cfgC7b : Config := ⟨100, 120, 80, -3, 1000, 1, 80, 120, true⟩

theorem run_failure_iff_zero_grid_witness :
    (grid_bot_strategy cfgC7b []).isSome = true ∧
    (grid_bot_strategy (Config.mk 100 80 120 0 1000 1 80 120 true)
      [⟨1, 5⟩]).isSome ≠ true ∧
    (grid_bot_strategy (Config.mk 100 80 120 2 0 1 80 120 true)
      [⟨1, 5⟩]).isSome ≠ true := by
  refine ⟨?_, ?_, ?_⟩
  · exact (run_failure_iff_zero_grid cfgC7b [] (by simp)).mpr
      ⟨by decide, by norm_num [cfgC7b]⟩
  · intro h
    have := (run_failure_iff_zero_grid
      (Config.mk 100 80 120 0 1000 1 80 120 true) [⟨1, 5⟩]
      (by intro b hb; simp at hb; rw [hb]; norm_num)).mp h
    exact this.1 rfl
  · intro h
    have := (run_failure_iff_zero_grid
      (Config.mk 100 80 120 2 0 1 80 120 true) [⟨1, 5⟩]
      (by intro b hb; simp at hb; rw [hb]; norm_num)).mp h
    exact this.2 rfl

/-! ### C4: the concrete three-bar scenario -/

def cfgC4 : Config := ⟨100, 80, 120, 2, 1000, 1, 0, 0, false⟩

def barsC4 : List Bar := [⟨1, 100⟩, ⟨2, 90⟩, ⟨3, 110⟩]

def s0C4 : EngineState := ⟨[], 0, 0, 1000, [], none⟩

lemma buyLevels_C4 : buyLevels cfgC4 = [80, 60] := by
  unfold buyLevels gridRange cfgC4
  rw [show Int.toNat 2 = 2 from rfl, show List.range 2 = [0, 1] from rfl]
  simp [List.map]
  norm_num

lemma sellLevels_C4 : sellLevels cfgC4 = [120, 140] := by
  unfold sellLevels gridRange cfgC4
  rw [show Int.toNat 2 = 2 from rfl, show List.range 2 = [0, 1] from rfl]
  simp [List.map]
  norm_num

lemma initC4 : initState cfgC4 = s0C4 := by
  unfold initState s0C4
  norm_num [show cfgC4.initialCapital = 1000 from rfl,
    show cfgC4.leverage = 1 from rfl]

lemma pb1C4 : processBar cfgC4 s0C4 ⟨1, 100⟩ = (s0C4, true) := by
  simp [processBar, s0C4, managePositions, openPhase,
    buyLevels_C4, sellLevels_C4, List.filter,
    show cfgC4.stopLossEnabled = false from rfl,
    show cfgC4.initialPrice = 100 from rfl]

lemma pb2C4 : processBar cfgC4 s0C4 ⟨2, 90⟩ = (s0C4, true) := by
  simp only [processBar, show cfgC4.stopLossEnabled = false from rfl,
    Bool.false_eq_true, false_and, if_false]
  rw [show managePositions 2 90 s0C4 = s0C4 from rfl]
  rw [openPhase, buyLevels_C4, sellLevels_C4]
  norm_num [s0C4, List.filter, show cfgC4.initialPrice = 100 from rfl]

lemma pb3C4 : processBar cfgC4 s0C4 ⟨3, 110⟩ = (s0C4, true) := by
  simp only [processBar, show cfgC4.stopLossEnabled = false from rfl,
    Bool.false_eq_true, false_and, if_false]
  rw [show managePositions 3 110 s0C4 = s0C4 from rfl]
  rw [openPhase, buyLevels_C4, sellLevels_C4]
  norm_num [s0C4, List.filter, show cfgC4.initialPrice = 100 from rfl]

lemma runBars_cons (cfg : Config) (s : EngineState) (b : Bar)
    (bs : List Bar) :
    runBars cfg s (b :: bs)
      = (match processBar cfg s b with
         | (s', true) => runBars cfg s' bs
         | (s', false) => s') := rfl

lemma runC4 : runBars cfgC4 (initState cfgC4) barsC4 = s0C4 := by
  rw [initC4]
  show runBars cfgC4 s0C4 [⟨1, 100⟩, ⟨2, 90⟩, ⟨3, 110⟩] = s0C4
  rw [runBars_cons, pb1C4]
  show runBars cfgC4 s0C4 [⟨2, 90⟩, ⟨3, 110⟩] = s0C4
  rw [runBars_cons, pb2C4]
  show runBars cfgC4 s0C4 [⟨3, 110⟩] = s0C4
  rw [runBars_cons, pb3C4]
  rfl

/-- C4 counterexample.  With `initialPrice = 100`,
`lowerLimit = 80`, `upperLimit = 120` and `gridLevels = 2`, the spacing
is `(120 − 80)/2 = 20`, so the code's buy levels are `[80, 60]` and its
sell levels `[120, 140]` — not `{90, 80}` / `{110, 120}` as claimed —
and on the bars `[100, 90, 110]` no level is ever reached: the ledger
is empty, with no opening trade on bar 2 and no close or short on
bar 3. -/
theorem scenario_ledger_empty_counterexample :
    buyLevels cfgC4 = [80, 60] ∧ sellLevels cfgC4 = [120, 140] ∧
    (gridRun cfgC4 barsC4).ledger = [] := by
  refine ⟨buyLevels_C4, sellLevels_C4, ?_⟩
  show (runBars cfgC4 (initState cfgC4) barsC4).ledger = []
  rw [runC4]
  rfl

/-- C4 amended.  On bars `[100, 90, 110]` with the stated
configuration the grid is `buy = [80, 60]`, `sell = [120, 140]`; no bar
reaches an eligible level, so nothing ever opens or closes: the ledger
is empty, every total is zero, and no stop-loss fires. -/
theorem scenario_run_characterization :
    (gridRun cfgC4 barsC4).ledger = [] ∧
    (gridRun cfgC4 barsC4).totalPnl = 0 ∧
    (gridRun cfgC4 barsC4).totalCost = 0 ∧
    (gridRun cfgC4 barsC4).mtmValue = 0 ∧
    (gridRun cfgC4 barsC4).totalMTM = 0 ∧
    (gridRun cfgC4 barsC4).roi = 0 ∧
    (gridRun cfgC4 barsC4).openTrades = 0 ∧
    (gridRun cfgC4 barsC4).slRecord = none := by
  simp [gridRun, runC4, s0C4, mtmOf]


/-! ### C5: ledger columns are rounded, totals are not -/

def cfgC5 : Config := ⟨100, 70, 130, 3, 1000, 1, 0, 0, false⟩

def barsC5 : List Bar := [⟨1, 80⟩]

def s0C5 : EngineState := ⟨[], 0, 0, 1000, [], none⟩

def rowC5 : Row :=
  ⟨1, 80, Action.buyOpening, 80, 100, 0, 416666667 / 100000000, 67 / 1000⟩

def s1C5 : EngineState :=
  ⟨[rowC5], 0, 1 / 15, 1000,
    [⟨Side.buy, 80, 100, 416666667 / 100000000⟩], none⟩

lemma buyLevels_C5 : buyLevels cfgC5 = [80, 60, 40] := by
  unfold buyLevels gridRange cfgC5
  rw [show Int.toNat 3 = 3 from rfl, show List.range 3 = [0, 1, 2] from rfl]
  simp [List.map]
  norm_num

lemma sellLevels_C5 : sellLevels cfgC5 = [120, 140, 160] := by
  unfold sellLevels gridRange cfgC5
  rw [show Int.toNat 3 = 3 from rfl, show List.range 3 = [0, 1, 2] from rfl]
  simp [List.map]
  norm_num

lemma initC5 : initState cfgC5 = s0C5 := by
  unfold initState s0C5
  norm_num [show cfgC5.initialCapital = 1000 from rfl,
    show cfgC5.leverage = 1 from rfl]

lemma r8C5 : round8 (1000 / (80 * ((3 : ℤ) : ℚ))) = 416666667 / 100000000 := by
  unfold round8
  rw [show (1000 : ℚ) / (80 * ((3 : ℤ) : ℚ)) * 100000000 = 2500000000 / 6 by
    norm_num]
  rw [round_eval (n := 416666667) (by norm_num) (by norm_num)]
  norm_num

lemma r3C5 : round3 (2 / 10000 * 80 * (1000 / (80 * ((3 : ℤ) : ℚ))))
    = 67 / 1000 := by
  unfold round3
  rw [show (2 : ℚ) / 10000 * 80 * (1000 / (80 * ((3 : ℤ) : ℚ))) * 1000
      = 200 / 3 by norm_num]
  rw [round_eval (n := 67) (by norm_num) (by norm_num)]
  norm_num

lemma openC5 : openStep cfgC5 1 80 Side.buy s0C5 80 = s1C5 := by
  unfold openStep
  rw [if_neg (by simp [s0C5])]
  show ({ s0C5 with
      totalCost := s0C5.totalCost
        + 2 / 10000 * 80 * (s0C5.workingCapital / (80 * ((cfgC5.gridLevels : ℤ) : ℚ))),
      positions := s0C5.positions
        ++ [⟨Side.buy, 80, 80 + gridRange cfgC5,
            round8 (s0C5.workingCapital / (80 * ((cfgC5.gridLevels : ℤ) : ℚ)))⟩],
      ledger := s0C5.ledger ++ [⟨1, 80, Action.buyOpening, 80,
        80 + gridRange cfgC5, 0,
        round8 (s0C5.workingCapital / (80 * ((cfgC5.gridLevels : ℤ) : ℚ))),
        round3 (2 / 10000 * 80
          * (s0C5.workingCapital / (80 * ((cfgC5.gridLevels : ℤ) : ℚ))))⟩] }
    : EngineState) = s1C5
  have hrange : gridRange cfgC5 = 20 := by
    unfold gridRange cfgC5
    norm_num
  have hwc : s0C5.workingCapital = 1000 := rfl
  have hgl : ((cfgC5.gridLevels : ℤ) : ℚ) = ((3 : ℤ) : ℚ) := rfl
  rw [hrange, hwc, hgl, r8C5, r3C5]
  unfold s0C5 s1C5 rowC5
  norm_num


lemma pbC5 : processBar cfgC5 s0C5 ⟨1, 80⟩ = (s1C5, true) := by
  simp only [processBar, show cfgC5.stopLossEnabled = false from rfl,
    Bool.false_eq_true, false_and, if_false]
  rw [show managePositions 1 80 s0C5 = s0C5 from rfl]
  show (openPhase cfgC5 1 80 s0C5, true) = (s1C5, true)
  rw [openPhase]
  rw [buyLevels_C5, sellLevels_C5]
  rw [show List.filter (fun l => decide ((80 : ℚ) ≤ l)) [80, 60, 40] = [80] by
    norm_num [List.filter]]
  rw [if_pos ⟨by norm_num [show cfgC5.initialPrice = 100 from rfl],
    by simp⟩]
  show (List.foldl (openStep cfgC5 1 80 Side.buy) s0C5 [80], true) = (s1C5, true)
  rw [show List.foldl (openStep cfgC5 1 80 Side.buy) s0C5 [80]
      = openStep cfgC5 1 80 Side.buy s0C5 80 from rfl]
  rw [openC5]

lemma runC5 : runBars cfgC5 (initState cfgC5) barsC5 = s1C5 := by
  rw [initC5]
  show runBars cfgC5 s0C5 [⟨1, 80⟩] = s1C5
  rw [runBars_cons, pbC5]
  rfl

/-- C5 counterexample.  At bar price 80 (config: initial 100,
limits 70/130, 3 levels, capital 1000, leverage 1) one long opens with
exact cost `0.0002·80·(1000/240) = 1/15`; `total_cost` accumulates the
exact `1/15`, but the ledger row stores `round(1/15, 3) = 0.067`, so
summing the ledger's cost column gives `0.067 ≠ 1/15`: ledger column
sums do not reproduce the returned totals exactly. -/
theorem ledger_cost_sum_mismatch_counterexample :
    (gridRun cfgC5 barsC5).totalCost = 1 / 15 ∧
    ledgerCostSum (gridRun cfgC5 barsC5).ledger = 67 / 1000 ∧
    ledgerCostSum (gridRun cfgC5 barsC5).ledger
      ≠ (gridRun cfgC5 barsC5).totalCost := by
  have h1 : (gridRun cfgC5 barsC5).totalCost = 1 / 15 := by
    simp [gridRun, runC5, s1C5]
  have h2 : ledgerCostSum (gridRun cfgC5 barsC5).ledger = 67 / 1000 := by
    simp [gridRun, runC5, s1C5, ledgerCostSum, rowC5]
  refine ⟨h1, h2, ?_⟩
  rw [h1, h2]
  norm_num

/-! ### C5 (amended): column sums match totals up to per-row rounding -/

/-- Each ledger row's stored PnL and cost are off from the exact
per-event values by at most half of `10⁻³`. -/
lemma round3_err (q : ℚ) : |round3 q - q| ≤ 1 / 2000 := by
  unfold round3
  have h := abs_sub_round (q * 1000)
  rw [abs_sub_comm] at h
  have heq : (round (q * 1000) : ℚ) / 1000 - q
      = ((round (q * 1000) : ℚ) - q * 1000) / 1000 := by ring
  rw [heq, abs_div, abs_of_pos (by norm_num : (0 : ℚ) < 1000)]
  linarith

/-- The accumulated error of a column sum grows by at most `1/2000` per
appended row. -/
lemma colSum_append (f : Row → ℚ) (rows : List Row) (r : Row)
    (tot dp : ℚ)
    (h : |(rows.map f).sum - tot| ≤ (rows.length : ℚ) / 2000)
    (hr : |f r - dp| ≤ 1 / 2000) :
    |((rows ++ [r]).map f).sum - (tot + dp)|
      ≤ ((rows ++ [r]).length : ℚ) / 2000 := by
  rw [List.map_append, List.sum_append, List.length_append]
  have heq : (rows.map f).sum + ([r].map f).sum - (tot + dp)
      = ((rows.map f).sum - tot) + (f r - dp) := by
    simp [List.map, List.sum]
    ring
  rw [heq]
  have hcast : ((rows.length + [r].length : ℕ) : ℚ)
      = (rows.length : ℚ) + 1 := by
    push_cast
    simp
  rw [hcast]
  calc |((rows.map f).sum - tot) + (f r - dp)|
      ≤ |(rows.map f).sum - tot| + |f r - dp| := abs_add _ _
    _ ≤ (rows.length : ℚ) / 2000 + 1 / 2000 := add_le_add h hr
    _ = ((rows.length : ℚ) + 1) / 2000 := by ring


/-- The ledger column sums track the exact running totals up to the
3-decimal rounding of each stored row. -/
def roundErrInv (s : EngineState) : Prop :=
  |ledgerPnlSum s.ledger - s.totalPnl| ≤ (s.ledger.length : ℚ) / 2000 ∧
  |ledgerCostSum s.ledger - s.totalCost| ≤ (s.ledger.length : ℚ) / 2000

lemma slRow_pnl (t : ℕ) (pr : ℚ) (p : Position) :
    (slRow t pr p).pnl = round3 (slPnl pr p) := by
  cases hp : p.side <;> simp [slRow, hp]

lemma slRow_cost (t : ℕ) (pr : ℚ) (p : Position) :
    (slRow t pr p).cost = round3 (slCost pr p) := by
  cases hp : p.side <;> simp [slRow, hp]

lemma closeRow_pnl (t : ℕ) (pr : ℚ) (p : Position) :
    (closeRow t pr p).pnl = round3 (closePnl pr p) := by
  cases hp : p.side <;> simp [closeRow, hp]

lemma closeRow_cost (t : ℕ) (pr : ℚ) (p : Position) :
    (closeRow t pr p).cost = round3 (closeCost pr p) := by
  cases hp : p.side <;> simp [closeRow, hp]

lemma errInv_slCloseStep (t : ℕ) (pr : ℚ) (s : EngineState) (p : Position)
    (h : roundErrInv s) : roundErrInv (slCloseStep t pr s p) := by
  constructor
  · exact colSum_append Row.pnl s.ledger (slRow t pr p) s.totalPnl
      (slPnl pr p) h.1 (by rw [slRow_pnl]; exact round3_err _)
  · exact colSum_append Row.cost s.ledger (slRow t pr p) s.totalCost
      (slCost pr p) h.2 (by rw [slRow_cost]; exact round3_err _)

lemma errInv_slCloseAll (b : Bar) (s : EngineState) (h : roundErrInv s) :
    roundErrInv (slCloseAll b s) := by
  have hfold : roundErrInv (s.positions.foldl (slCloseStep b.time b.close) s) :=
    foldl_preserves (slCloseStep b.time b.close) s.positions s h
      (fun p _ c hc => errInv_slCloseStep b.time b.close c p hc)
  exact hfold

lemma errInv_manageStep (t : ℕ) (pr : ℚ) (s : EngineState) (p : Position)
    (h : roundErrInv s) : roundErrInv (manageStep t pr s p) := by
  unfold manageStep
  by_cases hc : hitsTarget pr p
  · rw [if_pos hc]
    constructor
    · exact colSum_append Row.pnl s.ledger (closeRow t pr p) s.totalPnl
        (closePnl pr p) h.1 (by rw [closeRow_pnl]; exact round3_err _)
    · exact colSum_append Row.cost s.ledger (closeRow t pr p) s.totalCost
        (closeCost pr p) h.2 (by rw [closeRow_cost]; exact round3_err _)
  · rw [if_neg hc]
    exact h

lemma errInv_openStep (cfg : Config) (t : ℕ) (pr : ℚ) (side : Side)
    (s : EngineState) (level : ℚ) (h : roundErrInv s) :
    roundErrInv (openStep cfg t pr side s level) := by
  unfold openStep
  by_cases hocc : s.positions.any (fun p => p.price == level) = true
  · rw [if_pos hocc]
    exact h
  · rw [if_neg hocc]
    cases side
    · constructor
      · have := colSum_append Row.pnl s.ledger
          ⟨t, pr, Action.buyOpening, level, level + gridRange cfg, 0,
            round8 (s.workingCapital / (pr * (cfg.gridLevels : ℚ))),
            round3 (2 / 10000 * pr
              * (s.workingCapital / (pr * (cfg.gridLevels : ℚ))))⟩
          s.totalPnl 0 h.1 (by norm_num)
        rw [add_zero] at this
        exact this
      · exact colSum_append Row.cost s.ledger _ s.totalCost
          (2 / 10000 * pr * (s.workingCapital / (pr * (cfg.gridLevels : ℚ))))
          h.2 (round3_err _)
    · constructor
      · have := colSum_append Row.pnl s.ledger
          ⟨t, pr, Action.sellOpening, level - gridRange cfg, level, 0,
            round8 (s.workingCapital / (pr * (cfg.gridLevels : ℚ))),
            round3 (2 / 10000 * pr
              * (s.workingCapital / (pr * (cfg.gridLevels : ℚ))))⟩
          s.totalPnl 0 h.1 (by norm_num)
        rw [add_zero] at this
        exact this
      · exact colSum_append Row.cost s.ledger _ s.totalCost
          (2 / 10000 * pr * (s.workingCapital / (pr * (cfg.gridLevels : ℚ))))
          h.2 (round3_err _)

lemma errInv_openPhase (cfg : Config) (t : ℕ) (pr : ℚ) (s : EngineState)
    (h : roundErrInv s) : roundErrInv (openPhase cfg t pr s) := by
  unfold openPhase
  by_cases h1 : pr < cfg.initialPrice ∧
      (buyLevels cfg).filter (fun l => pr ≤ l) ≠ []
  · rw [if_pos h1]
    exact foldl_preserves (openStep cfg t pr Side.buy) _ s h
      (fun l _ c hc => errInv_openStep cfg t pr Side.buy c l hc)
  · rw [if_neg h1]
    by_cases h2 : cfg.initialPrice < pr ∧
        (sellLevels cfg).filter (fun l => l ≤ pr) ≠ []
    · rw [if_pos h2]
      exact foldl_preserves (openStep cfg t pr Side.sell) _ s h
        (fun l _ c hc => errInv_openStep cfg t pr Side.sell c l hc)
    · rw [if_neg h2]
      exact h

lemma errInv_managePositions (t : ℕ) (pr : ℚ) (s : EngineState)
    (h : roundErrInv s) : roundErrInv (managePositions t pr s) := by
  unfold managePositions
  exact foldl_preserves (manageStep t pr) s.positions { s with positions := [] }
    h (fun p _ c hc => errInv_manageStep t pr c p hc)

lemma errInv_processBar (cfg : Config) (s : EngineState) (b : Bar)
    (h : roundErrInv s) : roundErrInv (processBar cfg s b).1 := by
  unfold processBar
  by_cases h1 : cfg.stopLossEnabled = true ∧ cfg.upperStopLoss ≤ b.close
  · rw [if_pos h1]
    exact errInv_slCloseAll b s h
  · rw [if_neg h1]
    by_cases h2 : cfg.stopLossEnabled = true ∧ b.close ≤ cfg.lowerStopLoss
    · rw [if_pos h2]
      exact errInv_slCloseAll b s h
    · rw [if_neg h2]
      exact errInv_openPhase cfg b.time b.close _
        (errInv_managePositions b.time b.close s h)

lemma errInv_runBars (cfg : Config) :
    ∀ (bars : List Bar) (s : EngineState), roundErrInv s →
      roundErrInv (runBars cfg s bars) := by
  intro bars
  induction bars with
  | nil => intro s h; exact h
  | cons b bs ih =>
    intro s h
    rw [runBars_cons]
    have hpb := errInv_processBar cfg s b h
    rcases heq : processBar cfg s b with ⟨s', cont⟩
    rw [heq] at hpb
    cases cont
    · exact hpb
    · exact ih s' hpb

/-- C5 amended.  The returned `totalRealizedPnL` and `totalCost`
accumulate exact per-event values, while each ledger row stores its PnL
and cost rounded to 3 decimals; hence summing a ledger column (the
final cumulative entry) reproduces the corresponding total only up to
the accumulated rounding, at most half of `10⁻³` per row — not exactly,
as the original claim asserts. -/
theorem ledger_sums_within_rounding (cfg : Config) (bars : List Bar) :
    |ledgerPnlSum (gridRun cfg bars).ledger - (gridRun cfg bars).totalPnl|
      ≤ ((gridRun cfg bars).ledger.length : ℚ) / 2000 ∧
    |ledgerCostSum (gridRun cfg bars).ledger - (gridRun cfg bars).totalCost|
      ≤ ((gridRun cfg bars).ledger.length : ℚ) / 2000 := by
  have h0 : roundErrInv (initState cfg) := by
    constructor <;> simp [initState, ledgerPnlSum, ledgerCostSum]
  exact errInv_runBars cfg bars (initState cfg) h0


/-! ### C8: quantity signs -/

lemma round8_nonneg {q : ℚ} (h : 0 ≤ q) : 0 ≤ round8 q := by
  unfold round8
  apply div_nonneg _ (by norm_num)
  have : (0 : ℤ) ≤ round (q * 100000000) := by
    rw [round_eq]
    rw [Int.floor_nonneg]
    have : (0 : ℚ) ≤ q * 100000000 := by positivity
    linarith
  exact_mod_cast this

lemma slRow_quantity (t : ℕ) (pr : ℚ) (p : Position) :
    (slRow t pr p).quantity = p.quantity := by
  cases hp : p.side <;> simp [slRow, hp]

lemma closeRow_quantity (t : ℕ) (pr : ℚ) (p : Position) :
    (closeRow t pr p).quantity = p.quantity := by
  cases hp : p.side <;> simp [closeRow, hp]

/-- A position's stored target sits exactly one spacing beyond its
level, on the profitable side. -/
def targetSpec (cfg : Config) (p : Position) : Prop :=
  match p.side with
  | Side.buy => p.target = p.price + gridRange cfg
  | Side.sell => p.target = p.price - gridRange cfg

/-- Run invariant while no stop-loss has fired: the working capital
never drops below its initial value (target closes only realize
nonnegative PnL), every open position has a nonnegative stored quantity
and a well-formed target, and every ledger row has a nonnegative stored
quantity. -/
def posInv (cfg : Config) (w0 : ℚ) (s : EngineState) : Prop :=
  w0 ≤ s.workingCapital ∧
  (∀ p ∈ s.positions, 0 ≤ p.quantity ∧ targetSpec cfg p) ∧
  (∀ r ∈ s.ledger, 0 ≤ r.quantity)

/-- The part of the invariant that survives a stop-loss close-out. -/
def quantOK (s : EngineState) : Prop :=
  (∀ p ∈ s.positions, 0 ≤ p.quantity) ∧ (∀ r ∈ s.ledger, 0 ≤ r.quantity)

lemma quantOK_slCloseAll (b : Bar) (s : EngineState)
    (hpos : ∀ p ∈ s.positions, 0 ≤ p.quantity)
    (hled : ∀ r ∈ s.ledger, 0 ≤ r.quantity) :
    quantOK (slCloseAll b s) := by
  constructor
  · intro p hp
    rw [slCloseAll_positions] at hp
    simp at hp
  · intro r hr
    rw [slCloseAll_ledger] at hr
    rcases List.mem_append.mp hr with h | h
    · exact hled r h
    · rcases List.mem_map.mp h with ⟨p, hp, rfl⟩
      rw [slRow_quantity]
      exact hpos p hp

lemma closePnl_nonneg (cfg : Config) (pr : ℚ) (p : Position)
    (hr : 0 < gridRange cfg) (hq : 0 ≤ p.quantity)
    (htg : targetSpec cfg p) (hhit : hitsTarget pr p) :
    0 ≤ closePnl pr p := by
  cases hp : p.side
  · unfold hitsTarget at hhit
    unfold targetSpec at htg
    rw [hp] at hhit htg
    unfold closePnl
    rw [hp]
    apply mul_nonneg _ hq
    linarith
  · unfold hitsTarget at hhit
    unfold targetSpec at htg
    rw [hp] at hhit htg
    unfold closePnl
    rw [hp]
    apply mul_nonneg _ hq
    linarith

lemma posInv_manageStep (cfg : Config) (w0 : ℚ) (t : ℕ) (pr : ℚ)
    (hr : 0 < gridRange cfg) (s : EngineState) (p : Position)
    (hp : 0 ≤ p.quantity ∧ targetSpec cfg p)
    (h : posInv cfg w0 s) : posInv cfg w0 (manageStep t pr s p) := by
  unfold manageStep
  by_cases hc : hitsTarget pr p
  · rw [if_pos hc]
    refine ⟨?_, h.2.1, ?_⟩
    · have := closePnl_nonneg cfg pr p hr hp.1 hp.2 hc
      have hw := h.1
      show w0 ≤ s.workingCapital + closePnl pr p
      linarith
    · intro r hrm
      rcases List.mem_append.mp hrm with hm | hm
      · exact h.2.2 r hm
      · rw [List.mem_singleton] at hm
        rw [hm, closeRow_quantity]
        exact hp.1
  · rw [if_neg hc]
    refine ⟨h.1, ?_, h.2.2⟩
    intro q hq
    rcases List.mem_append.mp hq with hm | hm
    · exact h.2.1 q hm
    · rw [List.mem_singleton] at hm
      rw [hm]
      exact hp

lemma posInv_managePositions (cfg : Config) (w0 : ℚ) (t : ℕ) (pr : ℚ)
    (hr : 0 < gridRange cfg) (s : EngineState)
    (h : posInv cfg w0 s) : posInv cfg w0 (managePositions t pr s) := by
  unfold managePositions
  apply foldl_preserves (manageStep t pr) s.positions { s with positions := [] }
  · exact ⟨h.1, by simp, h.2.2⟩
  · intro p hp c hc
    exact posInv_manageStep cfg w0 t pr hr c p (h.2.1 p hp) hc

lemma posInv_openStep (cfg : Config) (w0 : ℚ) (t : ℕ) (pr : ℚ)
    (side : Side) (hw0 : 0 < w0) (hpr : 0 < pr)
    (hgl : 0 < ((cfg.gridLevels : ℤ) : ℚ)) (s : EngineState) (level : ℚ)
    (h : posInv cfg w0 s) : posInv cfg w0 (openStep cfg t pr side s level) := by
  unfold openStep
  by_cases hocc : s.positions.any (fun p => p.price == level) = true
  · rw [if_pos hocc]
    exact h
  · rw [if_neg hocc]
    have hq : 0 ≤ round8 (s.workingCapital / (pr * (cfg.gridLevels : ℚ))) := by
      apply round8_nonneg
      apply div_nonneg _ (le_of_lt (mul_pos hpr hgl))
      have := h.1
      linarith
    cases side
    · refine ⟨h.1, ?_, ?_⟩
      · intro q hqq
        rcases List.mem_append.mp hqq with hm | hm
        · exact h.2.1 q hm
        · rw [List.mem_singleton] at hm
          rw [hm]
          exact ⟨hq, rfl⟩
      · intro r hrm
        rcases List.mem_append.mp hrm with hm | hm
        · exact h.2.2 r hm
        · rw [List.mem_singleton] at hm
          rw [hm]
          exact hq
    · refine ⟨h.1, ?_, ?_⟩
      · intro q hqq
        rcases List.mem_append.mp hqq with hm | hm
        · exact h.2.1 q hm
        · rw [List.mem_singleton] at hm
          rw [hm]
          exact ⟨hq, rfl⟩
      · intro r hrm
        rcases List.mem_append.mp hrm with hm | hm
        · exact h.2.2 r hm
        · rw [List.mem_singleton] at hm
          rw [hm]
          exact hq

lemma posInv_openPhase (cfg : Config) (w0 : ℚ) (t : ℕ) (pr : ℚ)
    (hw0 : 0 < w0) (hpr : 0 < pr)
    (hgl : 0 < ((cfg.gridLevels : ℤ) : ℚ)) (s : EngineState)
    (h : posInv cfg w0 s) : posInv cfg w0 (openPhase cfg t pr s) := by
  unfold openPhase
  by_cases h1 : pr < cfg.initialPrice ∧
      (buyLevels cfg).filter (fun l => pr ≤ l) ≠ []
  · rw [if_pos h1]
    exact foldl_preserves (openStep cfg t pr Side.buy) _ s h
      (fun l _ c hc => posInv_openStep cfg w0 t pr Side.buy hw0 hpr hgl c l hc)
  · rw [if_neg h1]
    by_cases h2 : cfg.initialPrice < pr ∧
        (sellLevels cfg).filter (fun l => l ≤ pr) ≠ []
    · rw [if_pos h2]
      exact foldl_preserves (openStep cfg t pr Side.sell) _ s h
        (fun l _ c hc =>
          posInv_openStep cfg w0 t pr Side.sell hw0 hpr hgl c l hc)
    · rw [if_neg h2]
      exact h

lemma quantOK_runBars (cfg : Config) (w0 : ℚ) (hw0 : 0 < w0)
    (hr : 0 < gridRange cfg) (hgl : 0 < ((cfg.gridLevels : ℤ) : ℚ)) :
    ∀ (bars : List Bar) (s : EngineState), posInv cfg w0 s →
      (∀ b ∈ bars, 0 < b.close) → quantOK (runBars cfg s bars) := by
  intro bars
  induction bars with
  | nil =>
    intro s h _
    exact ⟨fun p hp => (h.2.1 p hp).1, h.2.2⟩
  | cons b bs ih =>
    intro s h hpos
    rw [runBars_cons]
    have hb := hpos b (List.mem_cons_self b bs)
    unfold processBar
    by_cases h1 : cfg.stopLossEnabled = true ∧ cfg.upperStopLoss ≤ b.close
    · rw [if_pos h1]
      exact quantOK_slCloseAll b s (fun p hp => (h.2.1 p hp).1) h.2.2
    · rw [if_neg h1]
      by_cases h2 : cfg.stopLossEnabled = true ∧ b.close ≤ cfg.lowerStopLoss
      · rw [if_pos h2]
        exact quantOK_slCloseAll b s (fun p hp => (h.2.1 p hp).1) h.2.2
      · rw [if_neg h2]
        apply ih
        · exact posInv_openPhase cfg w0 b.time b.close hw0 hb hgl _
            (posInv_managePositions cfg w0 b.time b.close hr s h)
        · intro x hx
          exact hpos x (List.mem_cons_of_mem b hx)

/-- C8 amended.  For runs with positive capital and leverage,
`lowerLimit < upperLimit`, a positive level count, and positive bar
closes, every ledger row and every remaining open position carries a
*nonnegative* stored quantity.  (The original strict claim fails: a
nonpositive bar close makes the sizing division negative — see the
counterexample — and the 8-decimal rounding of
`working_capital/(price·grid_levels)` can store an exact zero for
sufficiently tiny sizes, so nonnegativity is what the code guarantees.) -/
theorem quantities_nonneg (cfg : Config) (bars : List Bar)
    (hcap : 0 < cfg.initialCapital) (hlev : 0 < cfg.leverage)
    (hl : cfg.lowerLimit < cfg.upperLimit) (hn : 0 < cfg.gridLevels)
    (hpos : ∀ b ∈ bars, 0 < b.close) :
    (∀ r ∈ (gridRun cfg bars).ledger, 0 ≤ r.quantity) ∧
    (∀ p ∈ (runBars cfg (initState cfg) bars).positions, 0 ≤ p.quantity) := by
  have hw0 : 0 < cfg.initialCapital * cfg.leverage := mul_pos hcap hlev
  have hgl : 0 < ((cfg.gridLevels : ℤ) : ℚ) := by exact_mod_cast hn
  have h0 : posInv cfg (cfg.initialCapital * cfg.leverage) (initState cfg) := by
    refine ⟨le_refl _, ?_, ?_⟩ <;> simp [initState]
  have h := quantOK_runBars cfg (cfg.initialCapital * cfg.leverage) hw0
    (gridRange_pos cfg hl hn) hgl bars (initState cfg) h0 hpos
  exact ⟨h.2, h.1⟩

theorem quantities_nonneg_witness : 0 ≤ rowC5.quantity := by
  have h := quantities_nonneg cfgC5 barsC5
    (by norm_num [cfgC5]) (by norm_num [cfgC5]) (by norm_num [cfgC5])
    (by decide)
    (by intro b hb
        unfold barsC5 at hb
        rw [List.mem_singleton] at hb
        rw [hb]
        norm_num)
  apply h.1
  have hled : (gridRun cfgC5 barsC5).ledger = [rowC5] := by
    show (runBars cfgC5 (initState cfgC5) barsC5).ledger = [rowC5]
    rw [runC5]
    rfl
  rw [hled]
  exact List.mem_singleton.mpr rfl


def cfgC8 : Config := ⟨10, 0, 10, 1, 1, 1, 0, 0, false⟩

def barsC8 : List Bar := [⟨1, -1⟩]

def s0C8 : EngineState := ⟨[], 0, 0, 1, [], none⟩

def rowC8 : Row := ⟨1, -1, Action.buyOpening, 0, 10, 0, -1, 0⟩

def s1C8 : EngineState :=
  ⟨[rowC8], 0, 1 / 5000, 1, [⟨Side.buy, 0, 10, -1⟩], none⟩

lemma buyLevels_C8 : buyLevels cfgC8 = [0] := by
  unfold buyLevels gridRange cfgC8
  rw [show Int.toNat 1 = 1 from rfl, show List.range 1 = [0] from rfl]
  simp [List.map]

lemma initC8 : initState cfgC8 = s0C8 := by
  unfold initState s0C8
  norm_num [show cfgC8.initialCapital = 1 from rfl,
    show cfgC8.leverage = 1 from rfl]

lemma r8C8 : round8 (1 / ((-1) * ((1 : ℤ) : ℚ))) = -1 := by
  unfold round8
  rw [show (1 : ℚ) / ((-1) * ((1 : ℤ) : ℚ)) * 100000000 = -100000000 by
    norm_num]
  rw [show ((-100000000 : ℚ)) = ((-100000000 : ℤ) : ℚ) by norm_num,
    round_intCast]
  norm_num

lemma r3C8 : round3 (2 / 10000 * (-1) * (1 / ((-1) * ((1 : ℤ) : ℚ)))) = 0 := by
  unfold round3
  rw [show (2 : ℚ) / 10000 * (-1) * (1 / ((-1) * ((1 : ℤ) : ℚ))) * 1000
      = 1 / 5 by norm_num]
  rw [round_eval (n := 0) (by norm_num) (by norm_num)]
  norm_num

lemma openC8 : openStep cfgC8 1 (-1) Side.buy s0C8 0 = s1C8 := by
  unfold openStep
  rw [if_neg (by simp [s0C8])]
  show ({ s0C8 with
      totalCost := s0C8.totalCost
        + 2 / 10000 * (-1)
          * (s0C8.workingCapital / ((-1) * ((cfgC8.gridLevels : ℤ) : ℚ))),
      positions := s0C8.positions
        ++ [⟨Side.buy, 0, 0 + gridRange cfgC8,
            round8 (s0C8.workingCapital
              / ((-1) * ((cfgC8.gridLevels : ℤ) : ℚ)))⟩],
      ledger := s0C8.ledger ++ [⟨1, -1, Action.buyOpening, 0,
        0 + gridRange cfgC8, 0,
        round8 (s0C8.workingCapital / ((-1) * ((cfgC8.gridLevels : ℤ) : ℚ))),
        round3 (2 / 10000 * (-1)
          * (s0C8.workingCapital
            / ((-1) * ((cfgC8.gridLevels : ℤ) : ℚ))))⟩] }
    : EngineState) = s1C8
  have hrange : gridRange cfgC8 = 10 := by
    unfold gridRange cfgC8
    norm_num
  have hwc : s0C8.workingCapital = 1 := rfl
  have hgl : ((cfgC8.gridLevels : ℤ) : ℚ) = ((1 : ℤ) : ℚ) := rfl
  rw [hrange, hwc, hgl, r8C8, r3C8]
  unfold s0C8 s1C8 rowC8
  norm_num

lemma pbC8 : processBar cfgC8 s0C8 ⟨1, -1⟩ = (s1C8, true) := by
  simp only [processBar, show cfgC8.stopLossEnabled = false from rfl,
    Bool.false_eq_true, false_and, if_false]
  rw [show managePositions 1 (-1) s0C8 = s0C8 from rfl]
  show (openPhase cfgC8 1 (-1) s0C8, true) = (s1C8, true)
  rw [openPhase]
  rw [buyLevels_C8]
  rw [show List.filter (fun l => decide ((-1 : ℚ) ≤ l)) [0] = [0] by
    norm_num [List.filter]]
  rw [if_pos ⟨by norm_num [show cfgC8.initialPrice = 10 from rfl],
    by simp⟩]
  show (List.foldl (openStep cfgC8 1 (-1) Side.buy) s0C8 [0], true)
    = (s1C8, true)
  rw [show List.foldl (openStep cfgC8 1 (-1) Side.buy) s0C8 [0]
      = openStep cfgC8 1 (-1) Side.buy s0C8 0 from rfl]
  rw [openC8]

lemma runC8 : runBars cfgC8 (initState cfgC8) barsC8 = s1C8 := by
  rw [initC8]
  show runBars cfgC8 s0C8 [⟨1, -1⟩] = s1C8
  rw [runBars_cons, pbC8]
  rfl

/-- C8 counterexample.  With positive capital and leverage (both 1)
but a bar whose close is −1, the sizing division
`working_capital/(price·grid_levels) = 1/(−1·1) = −1` is negative: the
run opens a long at level 0 whose ledger row stores quantity −1,
refuting the claim that every ledger row's quantity is positive. -/
theorem negative_price_negative_quantity_counterexample :
    0 < cfgC8.initialCapital ∧ 0 < cfgC8.leverage ∧
    (gridRun cfgC8 barsC8).ledger.map Row.quantity = [-1] ∧
    ¬ (∀ r ∈ (gridRun cfgC8 barsC8).ledger, 0 < r.quantity) := by
  have hled : (gridRun cfgC8 barsC8).ledger = [rowC8] := by
    show (runBars cfgC8 (initState cfgC8) barsC8).ledger = [rowC8]
    rw [runC8]
    rfl
  refine ⟨by norm_num [cfgC8], by norm_num [cfgC8], ?_, ?_⟩
  · rw [hled]
    simp [rowC8]
  · intro hall
    have := hall rowC8 (by rw [hled]; exact List.mem_singleton.mpr rfl)
    rw [show rowC8.quantity = -1 from rfl] at this
    norm_num at this

end GridBot
